import Mathlib

/-!
Verification development for the `eclipse-predictor` repository.

The Rust sources are shallowly embedded as follows:

* `f64` scalars are modelled as `ℚ` where the code only performs field
  operations and comparisons (snapshot times, the light-direction buffer,
  serialization, position shifts), and as `ℝ` where the code calls
  `sqrt` / `asin` / `cos` / `sin` (the eclipse geometry in
  `EclipseDetector::detect_eclipse`).  Floating-point rounding is abstracted
  away: every operation is modelled exactly.
* `chrono::DateTime<Utc>` is modelled as `ℤ`, the number of nanoseconds since
  the epoch (`chrono` stores timestamps with nanosecond precision; comparison
  and subtraction of `DateTime`/`Duration` values are exactly integer
  comparison and subtraction on this representation).
* Rust panics (`unwrap`, `panic!`, out-of-bounds indexing) are modelled by
  `Option`/`Except` results: `none` / `.error` marks a panic of the original
  code, as stated in each definition's comment.
* `slice::binary_search_by_key` is modelled by its documented contract for
  slices sorted by the key (which is how all call sites use it): it yields
  `Ok i` when the key at index `i` equals the target, and otherwise
  `Err i` where `i` is the insertion index.  The model computes the first
  index whose key is `≥` the target, which realises exactly that contract on
  sorted keys.
-/

set_option maxRecDepth 8000

namespace EclipsePredictor

/-- Model of `nalgebra::Vector3<f64>`, over a scalar type `α`. -/
structure Vec3 (α : Type) where
  x : α
  y : α
  z : α
deriving DecidableEq

/-- Componentwise vector addition. -/
def Vec3.add {α : Type} [Add α] (v w : Vec3 α) : Vec3 α :=
  ⟨v.x + w.x, v.y + w.y, v.z + w.z⟩

/-- Componentwise vector subtraction. -/
def Vec3.sub {α : Type} [Sub α] (v w : Vec3 α) : Vec3 α :=
  ⟨v.x - w.x, v.y - w.y, v.z - w.z⟩

/-- Multiplication of a vector by a scalar on the right (`v * c` in nalgebra). -/
def Vec3.scale {α : Type} [Mul α] (v : Vec3 α) (c : α) : Vec3 α :=
  ⟨v.x * c, v.y * c, v.z * c⟩

/-- Division of a vector by a scalar (`v / c` in nalgebra). -/
def Vec3.divs {α : Type} [Div α] (v : Vec3 α) (c : α) : Vec3 α :=
  ⟨v.x / c, v.y / c, v.z / c⟩

/-- Dot product (`v.dot(&w)` in nalgebra). -/
def Vec3.dot {α : Type} [Add α] [Mul α] (v w : Vec3 α) : α :=
  v.x * w.x + v.y * w.y + v.z * w.z

/-- Euclidean norm of a real vector (`v.norm()` in nalgebra). -/
noncomputable def Vec3.norm (v : Vec3 ℝ) : ℝ :=
  Real.sqrt (v.dot v)

/-- Normalisation of a real vector (`v.normalize()` in nalgebra divides the
vector by its norm). -/
noncomputable def Vec3.normalize (v : Vec3 ℝ) : Vec3 ℝ :=
  v.divs v.norm

/-- Model of `Body` from `src/simulation/body.rs`. -/
structure Body (α : Type) where
  name : String
  gm : α
  pos : Vec3 α
  vel : Vec3 α
  radius : α
deriving DecidableEq

/-- Model of `Body::distance_from`: the Euclidean distance between the two
bodies' positions, `sqrt((pos - pos').dot(pos - pos'))`. -/
noncomputable def Body.distance_from (b other : Body ℝ) : ℝ :=
  Real.sqrt ((b.pos.sub other.pos).dot (b.pos.sub other.pos))

/-- Model of `SimState` from `src/simulation/mod.rs`: a timestamp
(nanoseconds since the epoch, modelling `DateTime<Utc>`) and a body list. -/
structure SimState (α : Type) where
  time : ℤ
  bodies : List (Body α)
deriving DecidableEq

/-- Model of `SimState::body_by_name`: the first body with the given name. -/
def SimState.body_by_name {α : Type} (s : SimState α) (n : String) : Option (Body α) :=
  s.bodies.find? (fun b => b.name == n)

/-- Model of the `Eclipse` enumeration from `src/main.rs`. -/
inductive Eclipse where
  | PenumbralLunar
  | PartialLunar
  | TotalLunar
  | PartialSolar
  | TotalSolar
  | AnnularSolar
deriving DecidableEq

/-- First index of `keys` whose entry is `≥ t`; equals `keys.length` when
every key is `< t`.  On a sorted list this is the insertion index computed by
Rust's `binary_search_by_key`. -/
def lowerIdx {β : Type} [LinearOrder β] (t : β) : List β → ℕ
  | [] => 0
  | k :: ks => if t ≤ k then 0 else lowerIdx t ks + 1

/-- Model of `slice::binary_search_by_key` via its contract on sorted keys:
`Sum.inl i` models `Ok(i)` (the key at `i` equals the target) and
`Sum.inr i` models `Err(i)` (`i` is the insertion index). -/
def binarySearchByKey {β : Type} [LinearOrder β] (keys : List β) (t : β) : Sum ℕ ℕ :=
  match keys.get? (lowerIdx t keys) with
  | some k => if k = t then Sum.inl (lowerIdx t keys) else Sum.inr (lowerIdx t keys)
  | none => Sum.inr (lowerIdx t keys)

/-- Model of `Snapshots::get_closest` from `src/snapshots.rs`.  The snapshot
list is the `snapshots` field (sorted by time by the `Snapshots` invariant).
`none` models the panic of the original code when it indexes
`self.snapshots[0]` on an empty list. -/
def get_closest {α : Type} (snaps : List (SimState α)) (t : ℤ) : Option (SimState α) :=
  match binarySearchByKey (snaps.map SimState.time) t with
  | Sum.inl i => snaps.get? i
  | Sum.inr i =>
    if i = 0 then
      snaps.get? 0
    else if i = snaps.length then
      snaps.get? (snaps.length - 1)
    else
      match snaps.get? (i - 1), snaps.get? i with
      | some s1, some s2 => if s2.time - t > t - s1.time then some s1 else some s2
      | _, _ => none

/-- Model of `Snapshots::insert` from `src/snapshots.rs`.  The first component
is the updated in-memory list; the second models the effect on durable
storage: `none` when nothing is persisted (a snapshot at that exact time
already exists), `some (key, state)` when `sim.save` is called with the file
name derived from the timestamp (the key is modelled as the timestamp
itself). -/
def Snapshots.insert {α : Type} (snaps : List (SimState α)) (sim : SimState α) :
    List (SimState α) × Option (ℤ × SimState α) :=
  match binarySearchByKey (snaps.map SimState.time) sim.time with
  | Sum.inl _ => (snaps, none)
  | Sum.inr i => (snaps.take i ++ sim :: snaps.drop i, some (sim.time, sim))

/-- Model of `EclipseDetector::light_dir_for` from `src/main.rs`: look up the
light direction for a (possibly historical) time in the rolling buffer,
interpolating linearly between the two bracketing samples. -/
def light_dir_for {α : Type} [LinearOrderedField α]
    (light_dirs : List (α × Vec3 α)) (time : α) : Option (Vec3 α) :=
  match binarySearchByKey (light_dirs.map Prod.fst) time with
  | Sum.inr i =>
    if i = 0 then
      none
    else if i = light_dirs.length then
      none
    else
      match light_dirs.get? (i - 1), light_dirs.get? i with
      | some (t1, vec1), some (t2, vec2) =>
        some (vec1.add (((vec2.sub vec1).divs (t2 - t1)).scale (time - t1)))
      | _, _ => none
  | Sum.inl i =>
    match light_dirs.get? i with
    | some e => some e.2
    | none => none

/-- Linear interpolation as the specification words it: the point a fraction
`(t - t1) / (t2 - t1)` of the way from `v1` to `v2`. -/
def lerpSpec {α : Type} [LinearOrderedField α]
    (t1 : α) (v1 : Vec3 α) (t2 : α) (v2 : Vec3 α) (t : α) : Vec3 α :=
  v1.add ((v2.sub v1).scale ((t - t1) / (t2 - t1)))

/-- Umbral shadow-cone height as computed in `detect_eclipse`:
`re * dist / (sun.radius - re)`. -/
noncomputable def shadowConeHeight (re dist sunRadius : ℝ) : ℝ :=
  re * dist / (sunRadius - re)

/-- Local radius of the umbral cone at axial depth `h`: the cone has its apex
at axial distance `height` and half-angle `a`, so its cross-section radius at
depth `h` is `(height - h) * tan a`.  This is the natural reading of the
specification's "shadow-cone local radius". -/
noncomputable def coneLocalRadius (height a h : ℝ) : ℝ :=
  (height - h) * Real.tan a

/-- Branch structure of the lunar-eclipse classification in `detect_eclipse`
(`src/main.rs` lines 80-93), over the scalar quantities the code derives:
the cone height `H`, the sine `s = re / shadow_cone_height` of the half-angle
`a = arcsin s`, the axial depth `h` of the Moon, the slant offset `r`, and the
Moon radius `rm`.  `h2` is the code's slant distance to the cone apex. -/
noncomputable def lunarBranchResult (H s a h r rm : ℝ) : Option Eclipse :=
  if 0 < h ∧ (r + rm) / (H - h + r * Real.sin a) < s then some Eclipse.TotalLunar
  else if 0 < h ∧ (r - rm) / (H - h + r * Real.sin a) < s then some Eclipse.PartialLunar
  else none

/-- Geometry of `detect_eclipse` (`src/main.rs` lines 66-93) once the three
bodies and the delayed light direction are in hand: the enlarged Earth radius
`re = radius * 1.011`, the umbral cone of height
`re * dist / (sun.radius - re)`, the Moon position projected on the cone axis,
and the total/partial/none decision of `lunarBranchResult`. -/
noncomputable def classifyLunar (sun earth moon : Body ℝ) (light_dir0 : Vec3 ℝ) :
    Option Eclipse :=
  let re := earth.radius * 1.011
  let dist := earth.distance_from sun
  let light_dir := light_dir0.normalize
  let shadow_cone_height := shadowConeHeight re dist sun.radius
  let moon_rel := moon.pos.sub earth.pos
  let a := Real.arcsin (re / shadow_cone_height)
  let h := moon_rel.dot light_dir
  let r_vec := moon_rel.sub (light_dir.scale h)
  let r := Real.sqrt (r_vec.dot r_vec) / Real.cos a
  lunarBranchResult shadow_cone_height (re / shadow_cone_height) a h r moon.radius

/-- Model of `EclipseDetector::detect_eclipse` from `src/main.rs`.  The
detector state is the rolling `light_dirs` buffer.  `Except.error` models the
panics of the three `unwrap` calls when a required body is missing;
`Except.ok none` is the code's `None` (no eclipse), also produced by the `?`
operator when the buffer does not bracket the delayed time
`time - dist / 299792.458`. -/
noncomputable def detect_eclipse (light_dirs : List (ℝ × Vec3 ℝ))
    (sim : SimState ℝ) (time : ℝ) : Except String (Option Eclipse) :=
  match sim.body_by_name "Sun", sim.body_by_name "Earth", sim.body_by_name "Moon" with
  | some sun, some earth, some moon =>
    match light_dir_for light_dirs (time - earth.distance_from sun / 299792.458) with
    | none => Except.ok none
    | some ld => Except.ok (classifyLunar sun earth moon ld)
  | _, _, _ => Except.error "missing body"

/-- Model of the refinement loop body from `main` (`src/main.rs`, lines
274-296).  `time2` is the current micro-step time (whole seconds, since the
loop always subtracts exactly `1.0`); `budget` is the number of further
1-second reversals the guard `time - time2 > STEP` still allows, so the
refinement entry point below starts it at `STEP = 300`.  Each iteration steps
back one second, aborts (`Except.error "wtf"`, the literal panic message of
the source) when the guard trips, and stops at the first micro-step whose
predicate value equals the pre-change value `current`.  The predicate trace
`pred` abstracts `detect_eclipse` evaluated on the reverse-integrated clone. -/
def refine_go (pred : ℤ → Option Eclipse) (current : Option Eclipse) :
    ℕ → ℤ → Except String ℤ
  | 0, _ => Except.error "wtf"
  | budget + 1, time2 =>
    if pred (time2 - 1) = current then Except.ok (time2 - 1)
    else refine_go pred current budget (time2 - 1)

/-- Model of the refinement phase entered at coarse time `T` (seconds): the
loop of `src/main.rs` lines 279-294 with `STEP = 300`. -/
def refine_loop (pred : ℤ → Option Eclipse) (current : Option Eclipse) (T : ℤ) :
    Except String ℤ :=
  refine_go pred current 300 T

/-- Model of `toml::Value` restricted to the shapes the program produces and
consumes: strings, floats (a finite `f64` is an exact rational), arrays and
tables.  A table is an association list; the `toml` map is only ever accessed
by key (`insert` on fresh keys, `remove`), which the list models exactly. -/
inductive TomlValue where
  | str (s : String)
  | float (q : ℚ)
  | arr (vs : List TomlValue)
  | table (entries : List (String × TomlValue))

/-- Model of `toml::map::Map::remove`: the value stored under `k`, if any,
together with the remaining entries. -/
def mapRemove (k : String) :
    List (String × TomlValue) → Option (TomlValue × List (String × TomlValue))
  | [] => none
  | (k', v) :: rest =>
    if k' = k then some (v, rest)
    else
      match mapRemove k rest with
      | some (v', rest') => some (v', (k', v) :: rest')
      | none => none

/-- Model of `toml::Value::as_float`: `Some` exactly on `Value::Float`. -/
def TomlValue.as_float : TomlValue → Option ℚ
  | TomlValue.float q => some q
  | _ => none

/-- Model of `impl From<Body> for Value` (`src/simulation/body.rs`): a table
with the keys `name`, `gm`, `radius`, `position`, `velocity`. -/
def Body.toValue (body : Body ℚ) : TomlValue :=
  TomlValue.table
    [("name", TomlValue.str body.name),
     ("gm", TomlValue.float body.gm),
     ("radius", TomlValue.float body.radius),
     ("position", TomlValue.arr
        [TomlValue.float body.pos.x, TomlValue.float body.pos.y, TomlValue.float body.pos.z]),
     ("velocity", TomlValue.arr
        [TomlValue.float body.vel.x, TomlValue.float body.vel.y, TomlValue.float body.vel.z])]

/-- Model of `impl From<Value> for Body` (`src/simulation/body.rs`).  Every
`panic!` / `expect` / failed `assert!` of the source is an `Except.error`
carrying the corresponding message. -/
def Body.fromValue (val : TomlValue) : Except String (Body ℚ) :=
  match val with
  | TomlValue.table map0 =>
    match mapRemove "name" map0 with
    | some (TomlValue.str name, map1) =>
      match mapRemove "gm" map1 with
      | some (TomlValue.float gm, map2) =>
        match mapRemove "radius" map2 with
        | some (TomlValue.float radius, map3) =>
          match mapRemove "position" map3 with
          | some (TomlValue.arr [p0, p1, p2], map4) =>
            match p0.as_float, p1.as_float, p2.as_float with
            | some px, some py, some pz =>
              match mapRemove "velocity" map4 with
              | some (TomlValue.arr [v0, v1, v2], _) =>
                match v0.as_float, v1.as_float, v2.as_float with
                | some vx, some vy, some vz =>
                  Except.ok ⟨name, gm, ⟨px, py, pz⟩, ⟨vx, vy, vz⟩, radius⟩
                | _, _, _ => Except.error "should be a float"
              | _ => Except.error "should be an array"
            | _, _, _ => Except.error "should be a float"
          | _ => Except.error "should be an array"
        | _ => Except.error "should be a float"
      | _ => Except.error "should be a float"
    | _ => Except.error "should be a string"
  | _ => Except.error "should be table"

/-- Model of `impl From<SimState> for Value` (`src/simulation/mod.rs`): a
table with the single key `bodies`. -/
def SimState.toValue (sim : SimState ℚ) : TomlValue :=
  TomlValue.table [("bodies", TomlValue.arr (sim.bodies.map Body.toValue))]

/-- Model of `impl From<Value> for SimState` (`src/simulation/mod.rs`): reads
the `bodies` array and resets the timestamp to the epoch
(`NaiveDateTime::from_timestamp(0, 0)`). -/
def SimState.fromValue (val : TomlValue) : Except String (SimState ℚ) :=
  match val with
  | TomlValue.table map0 =>
    match mapRemove "bodies" map0 with
    | some (TomlValue.arr bodies, _) =>
      match bodies.mapM Body.fromValue with
      | Except.ok bs => Except.ok ⟨0, bs⟩
      | Except.error e => Except.error e
    | _ => Except.error "should have an array"
  | _ => Except.error "should be a table"

/-- Per-body slice of a flat `SimDerivative` vector (`dir.0[i * DIM + j]` for
`j = 0, 1, 2`); out-of-range components read as `0`. -/
def derivVec (dir : List ℚ) (i : ℕ) : Vec3 ℚ :=
  ⟨dir.getD (3 * i) 0, dir.getD (3 * i + 1) 0, dir.getD (3 * i + 2) 0⟩

/-- Position update of `SimState::shift_position_in_place`: body `i` gains
`dir[3i..3i+2] * amount` on its position, everything else is untouched.
The counter is the index of the first body of the remaining list. -/
def shiftBodies (dir : List ℚ) (amount : ℚ) : ℕ → List (Body ℚ) → List (Body ℚ)
  | _, [] => []
  | i, b :: bs =>
    { b with pos := b.pos.add ((derivVec dir i).scale amount) } ::
      shiftBodies dir amount (i + 1) bs

/-- Truncation of a rational toward zero, modelling Rust's `as i64` cast of a
(finite, in-range) `f64`. -/
def ratTruncate (q : ℚ) : ℤ :=
  if 0 ≤ q then ⌊q⌋ else ⌈q⌉

/-- Rounding hack of `SimState::shift_position_in_place` (`src/simulation/mod.rs`
lines 194-200): when the advanced clock sits within one microsecond of a whole
second (sub-second part above `999_999_000` ns or below `1_000` ns), snap it to
that second. -/
def snapTime (t : ℤ) : ℤ :=
  let time_ns := t % 1000000000
  if time_ns > 999999000 then t + (1000000000 - time_ns)
  else if time_ns < 1000 then t - time_ns
  else t

/-- Model of `SimState::shift_position_in_place` (`src/simulation/mod.rs`):
shift every body's position by its derivative slice times `amount`, advance
the clock by `(amount * 1e9) as i64` nanoseconds, then apply the rounding
hack. -/
def SimState.shift_position (s : SimState ℚ) (dir : List ℚ) (amount : ℚ) : SimState ℚ :=
  { time := snapTime (s.time + ratTruncate (amount * 1000000000)),
    bodies := shiftBodies dir amount 0 s.bodies }

/-! Concrete three-body fixtures used to exercise `detect_eclipse`.  The
geometry is chosen so that the cone half-angle `a` has `sin a = 3/5` and
`cos a = 4/5`: the enlarged Earth radius is `re = (1000000/1011) * 1.011 =
1000`, the Sun radius `1600`, the Earth-Sun distance `1000`, hence the cone
height is `H = 5000/3` and `sin a = re / H = 3/5`.  The light-direction
buffer holds the single sample `(1, 0, 0)` at time `0`, and the query time
equals the light delay `1000 / 299792.458`, so the delayed lookup hits the
sample exactly. -/

noncomputable def sunFx : Body ℝ := ⟨"Sun", 1, ⟨-1000, 0, 0⟩, ⟨0, 0, 0⟩, 1600⟩

noncomputable def earthFx : Body ℝ := ⟨"Earth", 1, ⟨0, 0, 0⟩, ⟨0, 0, 0⟩, 1000000 / 1011⟩

/-- Moon centred on the shadow axis at depth `1000/3`, well inside the umbra
(`rm = 100 < 800 = (H - h) * sin a`). -/
noncomputable def moonTotalFx : Body ℝ := ⟨"Moon", 1, ⟨1000 / 3, 0, 0⟩, ⟨0, 0, 0⟩, 100⟩

/-- Moon at depth `1000/3` with lateral offset `1110`: beyond the cone's
local radius plus the Moon radius (`1000 + 100 = 1100`), yet still within
the code's eclipse threshold `1000 + 100 / cos a = 1125`. -/
noncomputable def moonPartialFx : Body ℝ := ⟨"Moon", 1, ⟨1000 / 3, 1110, 0⟩, ⟨0, 0, 0⟩, 100⟩

noncomputable def bufFx : List (ℝ × Vec3 ℝ) := [(0, ⟨1, 0, 0⟩)]

noncomputable def tFx : ℝ := 1000 / 299792.458

noncomputable def simTotalFx : SimState ℝ := ⟨0, [sunFx, earthFx, moonTotalFx]⟩

noncomputable def simPartialFx : SimState ℝ := ⟨0, [sunFx, earthFx, moonPartialFx]⟩

/-! Helper lemmas about `lowerIdx` and sorted key lists. -/

theorem lowerIdx_le_length {β : Type} [LinearOrder β] (t : β) (keys : List β) :
    lowerIdx t keys ≤ keys.length := by
  induction keys with
  | nil => simp [lowerIdx]
  | cons k ks ih =>
    simp only [lowerIdx, List.length_cons]
    split
    · exact Nat.zero_le _
    · exact Nat.succ_le_succ ih

theorem lt_of_lt_lowerIdx {β : Type} [LinearOrder β] {t : β} {keys : List β} {j : ℕ} {k : β}
    (hj : j < lowerIdx t keys) (hget : keys.get? j = some k) : k < t := by
  induction keys generalizing j with
  | nil => simp [lowerIdx] at hj
  | cons k0 ks ih =>
    by_cases h : t ≤ k0
    · simp [lowerIdx, h] at hj
    · cases j with
      | zero =>
        simp only [List.get?_cons_zero, Option.some.injEq] at hget
        exact hget ▸ lt_of_not_le h
      | succ j' =>
        simp only [lowerIdx, if_neg h] at hj
        exact ih (Nat.lt_of_succ_lt_succ hj) (by simpa using hget)

theorem le_of_get_lowerIdx {β : Type} [LinearOrder β] {t : β} {keys : List β} {k : β}
    (hget : keys.get? (lowerIdx t keys) = some k) : t ≤ k := by
  induction keys with
  | nil => simp at hget
  | cons k0 ks ih =>
    by_cases h : t ≤ k0
    · simp only [lowerIdx, if_pos h, List.get?_cons_zero, Option.some.injEq] at hget
      exact hget ▸ h
    · simp only [lowerIdx, if_neg h, List.get?_cons_succ] at hget
      exact ih hget

theorem lowerIdx_eq_of {β : Type} [LinearOrder β] {t : β} {keys : List β} {j : ℕ}
    (hj : j ≤ keys.length)
    (hbefore : ∀ jj kk, jj < j → keys.get? jj = some kk → kk < t)
    (hat : ∀ kk, keys.get? j = some kk → t ≤ kk) :
    lowerIdx t keys = j := by
  induction keys generalizing j with
  | nil =>
    simp only [List.length_nil, Nat.le_zero] at hj
    simp [lowerIdx, hj]
  | cons k0 ks ih =>
    by_cases h : t ≤ k0
    · have hj0 : j = 0 := by
        by_contra hne
        have hpos : 0 < j := Nat.pos_of_ne_zero hne
        exact absurd (hbefore 0 k0 hpos rfl) (not_lt_of_le h)
      simp [lowerIdx, h, hj0]
    · have hj0 : j ≠ 0 := by
        intro hj0
        exact h (hat k0 (by simp [hj0]))
      obtain ⟨j', rfl⟩ := Nat.exists_eq_succ_of_ne_zero hj0
      simp only [lowerIdx, if_neg h, Nat.succ_eq_add_one, Nat.add_right_cancel_iff]
      exact ih (by simpa using hj)
        (fun jj kk hjj hk => hbefore (jj + 1) kk (Nat.succ_lt_succ hjj) (by simpa using hk))
        (fun kk hk => hat kk (by simpa using hk))

theorem pairwise_lt_get? {β : Type} [Preorder β] {keys : List β}
    (hs : keys.Pairwise (· < ·)) {j1 j2 : ℕ} {k1 k2 : β}
    (h12 : j1 < j2) (h1 : keys.get? j1 = some k1) (h2 : keys.get? j2 = some k2) :
    k1 < k2 := by
  rw [List.get?_eq_some] at h1 h2
  obtain ⟨hl1, hg1⟩ := h1
  obtain ⟨hl2, hg2⟩ := h2
  have := List.pairwise_iff_get.1 hs ⟨j1, hl1⟩ ⟨j2, hl2⟩ h12
  rw [hg1, hg2] at this
  exact this

/-- C10: on an empty snapshot cache (which `Snapshots::new` produces when the
snapshot directory holds no file ending in `state`), `get_closest` reaches the
`Err(0)` branch and indexes `self.snapshots[0]`, an out-of-bounds access that
panics; it returns neither a state nor an error.  In this model the panic is
the `none` result, for every query time. -/
theorem getClosest_empty_panics (t : ℤ) :
    get_closest ([] : List (SimState ℚ)) t = none := rfl

/-! Refinement-loop lemmas (C3, C7). -/

theorem refine_go_ok_spec (pred : ℤ → Option Eclipse) (current : Option Eclipse) :
    ∀ (b : ℕ) (t2 r : ℤ), refine_go pred current b t2 = Except.ok r →
      pred r = current ∧ t2 - b ≤ r ∧ r ≤ t2 - 1 ∧
        ∀ j, r < j → j ≤ t2 - 1 → pred j ≠ current := by
  intro b
  induction b with
  | zero =>
    intro t2 r h
    simp [refine_go] at h
  | succ b ih =>
    intro t2 r h
    simp only [refine_go] at h
    by_cases hp : pred (t2 - 1) = current
    · rw [if_pos hp] at h
      obtain rfl : t2 - 1 = r := by simpa using h
      refine ⟨hp, by omega, le_refl _, ?_⟩
      intro j hj1 hj2
      omega
    · rw [if_neg hp] at h
      obtain ⟨h1, h2, h3, h4⟩ := ih (t2 - 1) r h
      refine ⟨h1, by omega, by omega, ?_⟩
      intro j hj1 hj2
      rcases eq_or_lt_of_le hj2 with hje | hjl
      · exact hje ▸ hp
      · exact h4 j hj1 (by omega)

/-- C3 (amended): whenever the refinement loop entered at coarse time `T`
returns a refined timestamp `r`, then `r` lies in the half-open window
`[T - STEP, T)` — the lower endpoint `T - STEP` is attainable — and `r` is the
first micro-step, scanning backward from `T` in 1-second steps, at which the
predicate value again equals its pre-change value `current` (that is, the
reported instant is the step at which the predicate returned to its
pre-change value; every strictly later micro-step below `T` still shows a
changed value). -/
theorem refineLoop_spec_amended (pred : ℤ → Option Eclipse) (current : Option Eclipse)
    (T r : ℤ) (h : refine_loop pred current T = Except.ok r) :
    pred r = current ∧ T - 300 ≤ r ∧ r < T ∧
      ∀ j, r < j → j < T → pred j ≠ current := by
  obtain ⟨h1, h2, h3, h4⟩ := refine_go_ok_spec pred current 300 T r h
  exact ⟨h1, h2, by omega, fun j hj1 hj2 => h4 j hj1 (by omega)⟩

/-- C3 counterexample: the claim says the refined timestamp lies strictly
between the two coarse-step timestamps.  With coarse step `STEP = 300` and a
predicate trace that only returns to its pre-change value (here `none`) at
exactly `T - STEP = 700`, the loop reports `700` itself: the lower endpoint is
attained, so "strictly between" is false. -/
theorem refineLoop_strict_counterexample :
    refine_loop (fun t => if t ≤ 700 then none else some Eclipse.TotalLunar) none 1000 =
      Except.ok 700 ∧ ¬ ((1000 : ℤ) - 300 < 700) := by
  constructor
  · rfl
  · decide

/-- C3 witness: a concrete refinement run returning a refined timestamp, to
which the amended theorem applies. -/
theorem refineLoop_spec_amended_witness :
    refine_loop (fun t => if t ≤ 998 then none else some Eclipse.TotalLunar) none 1000 =
      Except.ok 998 ∧
    ((fun t => if t ≤ 998 then (none : Option Eclipse) else some Eclipse.TotalLunar) 998 = none ∧
      (1000 : ℤ) - 300 ≤ 998 ∧ (998 : ℤ) < 1000 ∧
      ∀ j : ℤ, 998 < j → j < 1000 →
        (fun t => if t ≤ 998 then (none : Option Eclipse) else some Eclipse.TotalLunar) j ≠
          none) := by
  have h : refine_loop (fun t => if t ≤ 998 then none else some Eclipse.TotalLunar) none 1000 =
      Except.ok 998 := rfl
  exact ⟨h, refineLoop_spec_amended _ _ _ _ h⟩

theorem refine_go_error_spec (pred : ℤ → Option Eclipse) (current : Option Eclipse) :
    ∀ (b : ℕ) (t2 : ℤ),
      (∀ j, t2 - b ≤ j → j ≤ t2 - 1 → pred j ≠ current) →
      refine_go pred current b t2 = Except.error "wtf" := by
  intro b
  induction b with
  | zero => intro t2 _; rfl
  | succ b ih =>
    intro t2 h
    simp only [refine_go]
    rw [if_neg (h (t2 - 1) (by omega) (by omega))]
    exact ih (t2 - 1) (fun j hj1 hj2 => h j (by omega) (by omega))

/-- C7 (amended): when the predicate value never returns to its pre-change
value within the coarse window — so that the total reverse-stepped duration
exceeds the coarse step size `STEP = 300` — the refinement loop aborts
fatally.  The abort is `panic!("wtf")`: the message is the fixed string
`"wtf"`, which carries no context about the time window or the predicate
values involved (the claim's "surfaced with context" does not hold; see the
counterexample). -/
theorem refineGuard_aborts (pred : ℤ → Option Eclipse) (current : Option Eclipse) (T : ℤ)
    (h : ∀ j, T - 300 ≤ j → j < T → pred j ≠ current) :
    refine_loop pred current T = Except.error "wtf" :=
  refine_go_error_spec pred current 300 T (fun j hj1 hj2 => h j hj1 (by omega))

/-- C7 counterexample: two refinement runs over different time windows and
with different predicate values abort with the identical fixed message
`"wtf"`, so the failure output surfaces neither the time window nor the
predicate values, contrary to the claim. -/
theorem refineGuard_context_counterexample :
    refine_loop (fun _ => some Eclipse.TotalLunar) none 1000 = Except.error "wtf" ∧
    refine_loop (fun _ => some Eclipse.PartialLunar) (some Eclipse.TotalLunar) 2000 =
      Except.error "wtf" ∧
    (1000 : ℤ) ≠ 2000 :=
  ⟨rfl, rfl, by decide⟩

/-- C7 witness: a concrete diverging refinement run on which the abort theorem
fires (the predicate never returns to the pre-change value `none`). -/
theorem refineGuard_aborts_witness :
    refine_loop (fun _ => some Eclipse.AnnularSolar) none 500 = Except.error "wtf" :=
  refineGuard_aborts _ _ 500 (fun _ _ _ => by simp)

/-! Serialization round trip (C6). -/

theorem body_roundtrip (b : Body ℚ) : Body.fromValue (Body.toValue b) = Except.ok b := rfl

/-- C6: serializing a `SimState`'s body list to a TOML value and deserializing
it reproduces every body exactly — the `name`, `gm`, `radius` and all three
components of `position` and `velocity` of every body round-trip unchanged
(the deserialized state's timestamp is reset to the epoch, which the claim
does not cover). -/
theorem simstate_roundtrip (s : SimState ℚ) :
    SimState.fromValue (SimState.toValue s) = Except.ok ⟨0, s.bodies⟩ := by
  have h : (s.bodies.map Body.toValue).mapM Body.fromValue = Except.ok s.bodies := by
    induction s.bodies with
    | nil => rfl
    | cons b bs ih =>
      simp only [List.map_cons, List.mapM_cons, body_roundtrip, ih]
      rfl
  simp only [SimState.toValue, SimState.fromValue, mapRemove, if_pos]
  rw [h]

/-! Position shift (C8). -/

theorem shiftBodies_get? (dir : List ℚ) (a : ℚ) :
    ∀ (bs : List (Body ℚ)) (i0 i : ℕ),
      (shiftBodies dir a i0 bs).get? i =
        (bs.get? i).map
          (fun b => { b with pos := b.pos.add ((derivVec dir (i0 + i)).scale a) }) := by
  intro bs
  induction bs with
  | nil => intro i0 i; simp [shiftBodies]
  | cons b bs ih =>
    intro i0 i
    cases i with
    | zero => simp [shiftBodies]
    | succ i' =>
      have := ih (i0 + 1) i'
      simp only [shiftBodies, List.get?_cons_succ, this]
      have harith : i0 + 1 + i' = i0 + (i' + 1) := by omega
      rw [harith]

/-- C8 (amended): `shift_position` adds `derivative * amount` to every body's
position componentwise, leaving the body's name, `gm`, `radius` and velocity
unchanged; the clock is advanced by `amount * 1e9` nanoseconds truncated
toward zero, subject to the rounding correction that snaps the clock to the
nearest whole *second* whenever it lands within one microsecond of one (the
claim's "nearest whole nanosecond" is wrong; see the counterexample): the
correction moves the clock by less than one microsecond, always lands either
exactly on the truncated advance or on a whole second, is the identity when
the sub-second part is at least 1 µs away from both neighbouring seconds, and
zeroes the sub-second part when it is within 1 µs of one. -/
theorem shiftPosition_spec_amended (s : SimState ℚ) (dir : List ℚ) (a : ℚ)
    (i : ℕ) (b : Body ℚ) (hb : s.bodies.get? i = some b) :
    ((s.shift_position dir a).bodies.get? i =
      some { b with pos := b.pos.add ((derivVec dir i).scale a) }) ∧
    |(s.shift_position dir a).time - (s.time + ratTruncate (a * 1000000000))| < 1000 ∧
    ((s.shift_position dir a).time % 1000000000 = 0 ∨
      (s.shift_position dir a).time = s.time + ratTruncate (a * 1000000000)) ∧
    (1000 ≤ (s.time + ratTruncate (a * 1000000000)) % 1000000000 →
      (s.time + ratTruncate (a * 1000000000)) % 1000000000 ≤ 999999000 →
      (s.shift_position dir a).time = s.time + ratTruncate (a * 1000000000)) ∧
    ((s.time + ratTruncate (a * 1000000000)) % 1000000000 > 999999000 ∨
        (s.time + ratTruncate (a * 1000000000)) % 1000000000 < 1000 →
      (s.shift_position dir a).time % 1000000000 = 0) := by
  constructor
  · have h := shiftBodies_get? dir a s.bodies 0 i
    simp only [SimState.shift_position] at h ⊢
    rw [h, hb]
    simp
  · simp only [SimState.shift_position, snapTime]
    set t1 := s.time + ratTruncate (a * 1000000000) with ht1
    have h0 : 0 ≤ t1 % 1000000000 := Int.emod_nonneg t1 (by norm_num)
    have h1 : t1 % 1000000000 < 1000000000 := Int.emod_lt_of_pos t1 (by norm_num)
    have hsub : (t1 - t1 % 1000000000) % 1000000000 = 0 := by
      rw [Int.sub_emod, Int.emod_emod_of_dvd _ dvd_rfl, sub_self, Int.zero_emod]
    have hadd : (t1 + (1000000000 - t1 % 1000000000)) % 1000000000 = 0 := by
      have he : t1 + (1000000000 - t1 % 1000000000) =
          t1 - t1 % 1000000000 + 1000000000 := by ring
      rw [he, Int.add_emod, Int.emod_self, add_zero, Int.emod_emod_of_dvd _ dvd_rfl, hsub]
    refine ⟨?_, ?_, ?_, ?_⟩
    · rw [abs_lt]
      split_ifs <;> constructor <;> omega
    · split_ifs with hc1 hc2
      · exact Or.inl hadd
      · exact Or.inl hsub
      · exact Or.inr rfl
    · intro hge hle
      split_ifs <;> omega
    · intro hor
      split_ifs with hc1 hc2
      · exact hadd
      · exact hsub
      · omega

/-- C8 counterexample: advancing a state whose clock reads `0` by
`amount = 0.9999995` seconds.  Snapping sub-microsecond drift to the nearest
whole nanosecond, as the claim words the correction, would leave the clock at
`999_999_500` ns; the code snaps to the nearest whole second and sets it to
`1_000_000_000` ns. -/
theorem shiftPosition_nanosecond_counterexample :
    (SimState.shift_position ⟨0, []⟩ [] (9999995 / 10000000)).time = 1000000000 ∧
    (1000000000 : ℤ) ≠ 999999500 := by
  constructor
  · have hq : (9999995 / 10000000 * 1000000000 : ℚ) = ((999999500 : ℤ) : ℚ) := by norm_num
    have htr : ratTruncate (9999995 / 10000000 * 1000000000 : ℚ) = 999999500 := by
      rw [ratTruncate, hq, if_pos (by norm_num)]
      exact Int.floor_intCast _
    simp only [SimState.shift_position, snapTime, htr]
    norm_num
  · decide

/-- C8 witness: the amended shift theorem applied to a concrete one-body
state. -/
theorem shiftPosition_spec_amended_witness :
    ((⟨0, [⟨"Earth", 1, ⟨1, 2, 3⟩, ⟨4, 5, 6⟩, 7⟩]⟩ : SimState ℚ).bodies.get? 0 =
      some ⟨"Earth", 1, ⟨1, 2, 3⟩, ⟨4, 5, 6⟩, 7⟩) ∧
    ((SimState.shift_position ⟨0, [⟨"Earth", 1, ⟨1, 2, 3⟩, ⟨4, 5, 6⟩, 7⟩]⟩ [10, 20, 30] 2).bodies.get? 0 =
      some ⟨"Earth", 1, Vec3.add ⟨1, 2, 3⟩ ((derivVec [10, 20, 30] 0).scale 2), ⟨4, 5, 6⟩, 7⟩) := by
  have hb : (⟨0, [⟨"Earth", 1, ⟨1, 2, 3⟩, ⟨4, 5, 6⟩, 7⟩]⟩ : SimState ℚ).bodies.get? 0 =
      some ⟨"Earth", 1, ⟨1, 2, 3⟩, ⟨4, 5, 6⟩, 7⟩ := rfl
  exact ⟨hb, (shiftPosition_spec_amended _ [10, 20, 30] 2 0 _ hb).1⟩

/-! Snapshot cache lookup (C1). -/

theorem get_closest_eq_inl {α : Type} (snaps : List (SimState α)) (t : ℤ) (i : ℕ)
    (hb : binarySearchByKey (snaps.map SimState.time) t = Sum.inl i) :
    get_closest snaps t = snaps.get? i := by
  unfold get_closest
  rw [hb]

theorem get_closest_eq_inr {α : Type} (snaps : List (SimState α)) (t : ℤ) (i : ℕ)
    (hb : binarySearchByKey (snaps.map SimState.time) t = Sum.inr i) :
    get_closest snaps t =
      (if i = 0 then snaps.get? 0
       else if i = snaps.length then snaps.get? (snaps.length - 1)
       else
         match snaps.get? (i - 1), snaps.get? i with
         | some s1, some s2 => if s2.time - t > t - s1.time then some s1 else some s2
         | _, _ => none) := by
  unfold get_closest
  rw [hb]

/-- C1: on a non-empty cache with strictly increasing snapshot times,
`get_closest` returns a cached snapshot whose time minimizes `|time - t|`,
with ties broken toward the later snapshot (every other snapshot is either
strictly farther from `t`, or equally far but not later); consequently, when
`t` is at or before the first snapshot time the first snapshot is returned,
when `t` is at or after the last snapshot time the last snapshot is returned,
and an exact time match returns that snapshot's state. -/
theorem getClosest_spec (snaps : List (SimState ℚ)) (t : ℤ)
    (hs : (snaps.map SimState.time).Pairwise (· < ·)) (hne : snaps ≠ []) :
    ∃ s, get_closest snaps t = some s ∧ s ∈ snaps ∧
      (∀ j s', snaps.get? j = some s' →
        |s.time - t| < |s'.time - t| ∨
          (|s.time - t| = |s'.time - t| ∧ s'.time ≤ s.time)) ∧
      (∀ s1, snaps.head? = some s1 → t ≤ s1.time → s = s1) ∧
      (∀ sn, snaps.getLast? = some sn → sn.time ≤ t → s = sn) ∧
      (∀ j s', snaps.get? j = some s' → s'.time = t → s = s') := by
  have hlen : (snaps.map SimState.time).length = snaps.length := List.length_map _ _
  have hpos : 0 < snaps.length := List.length_pos.mpr hne
  have hkget : ∀ j (s' : SimState ℚ), snaps.get? j = some s' →
      (snaps.map SimState.time).get? j = some s'.time := by
    intro j s' hj
    rw [List.get?_map, hj]
    rfl
  have hmono : ∀ j1 j2 s1 s2, j1 < j2 → snaps.get? j1 = some s1 →
      snaps.get? j2 = some s2 → s1.time < s2.time := by
    intro j1 j2 s1 s2 h12 h1 h2
    exact pairwise_lt_get? hs h12 (hkget _ _ h1) (hkget _ _ h2)
  have hinj : ∀ j1 j2 s1 s2, snaps.get? j1 = some s1 → snaps.get? j2 = some s2 →
      s1.time = s2.time → s1 = s2 := by
    intro j1 j2 s1 s2 h1 h2 heq
    rcases lt_trichotomy j1 j2 with h | h | h
    · exact absurd (hmono j1 j2 s1 s2 h h1 h2) (by omega)
    · rw [h, h2] at h1
      injection h1 with h1
      exact h1.symm
    · exact absurd (hmono j2 j1 s2 s1 h h2 h1) (by omega)
  set i := lowerIdx t (snaps.map SimState.time) with hidef
  have hile : i ≤ snaps.length := by
    rw [← hlen]
    exact lowerIdx_le_length _ _
  have hbef : ∀ j s', j < i → snaps.get? j = some s' → s'.time < t := by
    intro j s' hj hjg
    exact lt_of_lt_lowerIdx hj (hkget _ _ hjg)
  have hat : ∀ s', snaps.get? i = some s' → t ≤ s'.time := by
    intro s' hig
    exact le_of_get_lowerIdx (hkget _ _ hig)
  have haft : ∀ j s', i < j → snaps.get? j = some s' → t < s'.time := by
    intro j s' hij hjg
    have hjlen : j < snaps.length := (List.get?_eq_some.mp hjg).1
    have hilen : i < snaps.length := lt_trans hij hjlen
    have hsi := List.get?_eq_get hilen
    exact lt_of_le_of_lt (hat _ hsi) (hmono i j _ _ hij hsi hjg)
  suffices hmain : ∃ s, get_closest snaps t = some s ∧ s ∈ snaps ∧
      ∀ j s', snaps.get? j = some s' →
        |s.time - t| < |s'.time - t| ∨
          (|s.time - t| = |s'.time - t| ∧ s'.time ≤ s.time) by
    obtain ⟨sc, hres, hmem, hmin⟩ := hmain
    obtain ⟨⟨c, hclen⟩, hcget⟩ := List.mem_iff_get.mp hmem
    have hc : snaps.get? c = some sc := by
      rw [List.get?_eq_get hclen, hcget]
    refine ⟨sc, hres, hmem, hmin, ?_, ?_, ?_⟩
    · intro s1 h1 ht1
      have h1' : snaps.get? 0 = some s1 := by
        cases snaps with
        | nil => simp at h1
        | cons a l => simpa using h1
      have hge : s1.time ≤ sc.time := by
        rcases Nat.eq_zero_or_pos c with hc0 | hc0
        · rw [hc0] at hc
          rw [h1'] at hc
          injection hc with hcs
          rw [hcs]
        · exact le_of_lt (hmono 0 c s1 sc hc0 h1' hc)
      have habs1 : |sc.time - t| = sc.time - t := abs_of_nonneg (by omega)
      have habs2 : |s1.time - t| = s1.time - t := abs_of_nonneg (by omega)
      rcases hmin 0 s1 h1' with hlt | ⟨heq, _⟩
      · rw [habs1, habs2] at hlt
        exact absurd hlt (by omega)
      · rw [habs1, habs2] at heq
        exact hinj c 0 sc s1 hc h1' (by omega)
    · intro sn hlast hsnt
      have hn' : snaps.get? (snaps.length - 1) = some sn := by
        rw [← List.getLast?_eq_get?]
        exact hlast
      have hle : sc.time ≤ sn.time := by
        rcases Nat.lt_or_ge c (snaps.length - 1) with hcl | hcl
        · exact le_of_lt (hmono c (snaps.length - 1) sc sn hcl hc hn')
        · have : c = snaps.length - 1 := by omega
          rw [this, hn'] at hc
          injection hc with hcs
          rw [hcs]
      have habs1 : |sc.time - t| = t - sc.time := by
        rw [abs_sub_comm]
        exact abs_of_nonneg (by omega)
      have habs2 : |sn.time - t| = t - sn.time := by
        rw [abs_sub_comm]
        exact abs_of_nonneg (by omega)
      rcases hmin (snaps.length - 1) sn hn' with hlt | ⟨heq, _⟩
      · rw [habs1, habs2] at hlt
        exact absurd hlt (by omega)
      · rw [habs1, habs2] at heq
        exact hinj c (snaps.length - 1) sc sn hc hn' (by omega)
    · intro j s' hj hjt
      rcases hmin j s' hj with hlt | ⟨heq, _⟩
      · rw [hjt, sub_self, abs_zero] at hlt
        exact absurd hlt (by simp)
      · rw [hjt, sub_self, abs_zero, abs_eq_zero, sub_eq_zero] at heq
        exact hinj c j sc s' hc hj (heq.trans hjt.symm)
  rcases hk0 : (snaps.map SimState.time).get? i with _ | k
  · -- `Err(length)`: every stored time is below `t`; the last snapshot is chosen.
    have hieq : i = snaps.length := by
      have := List.get?_eq_none.mp hk0
      omega
    have hb : binarySearchByKey (snaps.map SimState.time) t = Sum.inr i := by
      unfold binarySearchByKey
      rw [← hidef, hk0]
    have hres : get_closest snaps t = snaps.get? (snaps.length - 1) := by
      rw [get_closest_eq_inr snaps t i hb, if_neg (by omega), if_pos hieq]
    have hclen : snaps.length - 1 < snaps.length := by omega
    have hcg := List.get?_eq_get hclen
    refine ⟨snaps.get ⟨snaps.length - 1, hclen⟩, by rw [hres, hcg], List.get_mem _ _ _, ?_⟩
    intro j s' hj
    have hjlen : j < snaps.length := (List.get?_eq_some.mp hj).1
    have hlast_lt : (snaps.get ⟨snaps.length - 1, hclen⟩).time < t :=
      hbef _ _ (by omega) hcg
    rcases Nat.lt_or_ge j (snaps.length - 1) with hjl | hjl
    · left
      have hjlt : s'.time < (snaps.get ⟨snaps.length - 1, hclen⟩).time :=
        hmono j (snaps.length - 1) _ _ hjl hj hcg
      rw [abs_sub_comm, abs_of_nonneg (by omega), abs_sub_comm (s'.time),
        abs_of_nonneg (by omega)]
      omega
    · have hjeq : j = snaps.length - 1 := by omega
      rw [hjeq, hcg] at hj
      injection hj with hj
      right
      rw [← hj]
      exact ⟨rfl, le_refl _⟩
  · -- The insertion index holds a key `k ≥ t`.
    have hilen : i < snaps.length := by
      have := (List.get?_eq_some.mp hk0).1
      omega
    obtain ⟨s2, hs2⟩ : ∃ s2, snaps.get? i = some s2 := ⟨_, List.get?_eq_get hilen⟩
    have hs2t : s2.time = k := by
      have := hkget i s2 hs2
      rw [hk0] at this
      injection this with h
      exact h.symm
    have hts2 : t ≤ s2.time := hat _ hs2
    by_cases hkt : k = t
    · -- `Ok(i)`: exact match.
      have hb : binarySearchByKey (snaps.map SimState.time) t = Sum.inl i := by
        unfold binarySearchByKey
        rw [← hidef, hk0]
        simp [hkt]
      have hres : get_closest snaps t = snaps.get? i := get_closest_eq_inl snaps t i hb
      have hs2teq : s2.time = t := by rw [hs2t, hkt]
      refine ⟨s2, by rw [hres, hs2], List.get?_mem hs2, ?_⟩
      intro j s' hj
      rcases lt_trichotomy j i with hji | hji | hji
      · left
        have := hbef j s' hji hj
        rw [hs2teq, sub_self, abs_zero, abs_sub_comm, abs_of_nonneg (by omega)]
        omega
      · right
        rw [hji, hs2] at hj
        injection hj with hj
        rw [← hj]
        exact ⟨rfl, le_refl _⟩
      · left
        have := haft j s' hji hj
        rw [hs2teq, sub_self, abs_zero, abs_of_nonneg (by omega)]
        omega
    · -- `Err(i)` with `t` strictly below the key at `i`.
      have htlt : t < s2.time := lt_of_le_of_ne hts2 (by rw [hs2t]; exact fun h => hkt h.symm)
      have hb : binarySearchByKey (snaps.map SimState.time) t = Sum.inr i := by
        unfold binarySearchByKey
        rw [← hidef, hk0]
        simp [hkt]
      rcases Nat.eq_zero_or_pos i with hi0 | hi0
      · -- `Err(0)`: `t` precedes the whole cache; the first snapshot is chosen.
        have hres : get_closest snaps t = snaps.get? 0 := by
          rw [get_closest_eq_inr snaps t i hb, if_pos hi0]
        rw [hi0] at hs2
        refine ⟨s2, by rw [hres, hs2], List.get?_mem hs2, ?_⟩
        intro j s' hj
        rcases Nat.eq_zero_or_pos j with hj0 | hj0
        · right
          rw [hj0, hs2] at hj
          injection hj with hj
          rw [← hj]
          exact ⟨rfl, le_refl _⟩
        · left
          have hgt : s2.time < s'.time := hmono 0 j s2 s' hj0 hs2 hj
          rw [abs_of_nonneg (by omega), abs_of_nonneg (by omega)]
          omega
      · -- `Err(i)` with `0 < i < length`: compare the two bracketing snapshots.
        obtain ⟨s1, hs1⟩ : ∃ s1, snaps.get? (i - 1) = some s1 :=
          ⟨_, List.get?_eq_get (by omega)⟩
        have hs1t : s1.time < t := hbef _ _ (by omega) hs1
        have hres : get_closest snaps t =
            (if s2.time - t > t - s1.time then some s1 else some s2) := by
          rw [get_closest_eq_inr snaps t i hb, if_neg (by omega), if_neg (by omega), hs1, hs2]
        by_cases hcmp : s2.time - t > t - s1.time
        · -- the earlier snapshot is strictly closer
          rw [if_pos hcmp] at hres
          refine ⟨s1, hres, List.get?_mem hs1, ?_⟩
          intro j s' hj
          rcases Nat.lt_or_ge j (i - 1) with hji | hji
          · left
            have hlt : s'.time < s1.time := hmono j (i - 1) s' s1 hji hj hs1
            rw [abs_sub_comm, abs_of_nonneg (by omega), abs_sub_comm (s'.time),
              abs_of_nonneg (by omega)]
            omega
          · rcases Nat.eq_or_lt_of_le hji with hje | hji
            · right
              rw [← hje, hs1] at hj
              injection hj with hj
              rw [← hj]
              exact ⟨rfl, le_refl _⟩
            · left
              have hs'ge : s2.time ≤ s'.time := by
                rcases Nat.eq_or_lt_of_le (show i ≤ j by omega) with hje | hji2
                · rw [← hje, hs2] at hj
                  injection hj with hj
                  rw [hj]
                · exact le_of_lt (hmono i j s2 s' hji2 hs2 hj)
              rw [abs_sub_comm, abs_of_nonneg (by omega), abs_of_nonneg (by omega)]
              omega
        · -- tie or the later snapshot closer
          rw [if_neg hcmp] at hres
          refine ⟨s2, hres, List.get?_mem hs2, ?_⟩
          intro j s' hj
          rcases Nat.lt_or_ge j i with hji | hji
          · have hs'le : s'.time ≤ s1.time := by
              rcases Nat.eq_or_lt_of_le (show j ≤ i - 1 by omega) with hje | hji2
              · rw [hje, hs1] at hj
                injection hj with hj
                rw [hj]
              · exact le_of_lt (hmono j (i - 1) s' s1 hji2 hj hs1)
            rcases lt_or_eq_of_le (show s2.time - t ≤ t - s'.time by omega) with hx | hx
            · left
              rw [abs_of_nonneg (by omega), abs_sub_comm, abs_of_nonneg (by omega)]
              omega
            · right
              constructor
              · rw [abs_of_nonneg (by omega), abs_sub_comm, abs_of_nonneg (by omega)]
                omega
              · omega
          · rcases Nat.eq_or_lt_of_le hji with hje | hji2
            · right
              rw [← hje, hs2] at hj
              injection hj with hj
              rw [← hj]
              exact ⟨rfl, le_refl _⟩
            · left
              have hgt : s2.time < s'.time := hmono i j s2 s' hji2 hs2 hj
              rw [abs_of_nonneg (by omega), abs_of_nonneg (by omega)]
              omega

/-- C1 witness: a two-snapshot cache, with the query equidistant from both
snapshots; the theorem applies and yields the returned snapshot. -/
theorem getClosest_spec_witness :
    (([⟨100, []⟩, ⟨200, []⟩] : List (SimState ℚ)).map SimState.time).Pairwise (· < ·) ∧
    ([⟨100, []⟩, ⟨200, []⟩] : List (SimState ℚ)) ≠ [] ∧
    ∃ s, get_closest ([⟨100, []⟩, ⟨200, []⟩] : List (SimState ℚ)) 150 = some s ∧
      s ∈ ([⟨100, []⟩, ⟨200, []⟩] : List (SimState ℚ)) := by
  have h1 : (([⟨100, []⟩, ⟨200, []⟩] : List (SimState ℚ)).map SimState.time).Pairwise
      (· < ·) := by decide
  have h2 : ([⟨100, []⟩, ⟨200, []⟩] : List (SimState ℚ)) ≠ [] := by simp
  obtain ⟨s, hres, hmem, -, -, -, -⟩ := getClosest_spec _ 150 h1 h2
  exact ⟨h1, h2, s, hres, hmem⟩

/-! Light-direction buffer interpolation (C4). -/

theorem light_dir_for_eq_inl {α : Type} [LinearOrderedField α]
    (buf : List (α × Vec3 α)) (t : α) (i : ℕ)
    (hb : binarySearchByKey (buf.map Prod.fst) t = Sum.inl i) :
    light_dir_for buf t =
      (match buf.get? i with
       | some e => some e.2
       | none => none) := by
  unfold light_dir_for
  rw [hb]

theorem light_dir_for_eq_inr {α : Type} [LinearOrderedField α]
    (buf : List (α × Vec3 α)) (t : α) (i : ℕ)
    (hb : binarySearchByKey (buf.map Prod.fst) t = Sum.inr i) :
    light_dir_for buf t =
      (if i = 0 then none
       else if i = buf.length then none
       else
         match buf.get? (i - 1), buf.get? i with
         | some (t1, vec1), some (t2, vec2) =>
           some (vec1.add (((vec2.sub vec1).divs (t2 - t1)).scale (t - t1)))
         | _, _ => none) := by
  unfold light_dir_for
  rw [hb]

/-- C4: with the rolling buffer sorted by strictly increasing timestamps,
`light_dir_for t` returns `none` whenever `t` precedes the first buffered
sample or follows the last one; on an exact timestamp match it returns the
stored direction; and for `t` strictly between two adjacent samples it
returns the linear interpolation between them. -/
theorem lightDirFor_spec (buf : List (ℚ × Vec3 ℚ)) (t : ℚ)
    (hs : (buf.map Prod.fst).Pairwise (· < ·)) :
    (∀ e1, buf.head? = some e1 → t < e1.1 → light_dir_for buf t = none) ∧
    (∀ en, buf.getLast? = some en → en.1 < t → light_dir_for buf t = none) ∧
    (∀ j e, buf.get? j = some e → e.1 = t → light_dir_for buf t = some e.2) ∧
    (∀ j e1 e2, buf.get? j = some e1 → buf.get? (j + 1) = some e2 →
      e1.1 < t → t < e2.1 →
      light_dir_for buf t = some (lerpSpec e1.1 e1.2 e2.1 e2.2 t)) := by
  have hkget : ∀ j (e : ℚ × Vec3 ℚ), buf.get? j = some e →
      (buf.map Prod.fst).get? j = some e.1 := by
    intro j e hj
    rw [List.get?_map, hj]
    rfl
  have hmono : ∀ j1 j2 (e1 e2 : ℚ × Vec3 ℚ), j1 < j2 → buf.get? j1 = some e1 →
      buf.get? j2 = some e2 → e1.1 < e2.1 := by
    intro j1 j2 e1 e2 h12 h1 h2
    exact pairwise_lt_get? hs h12 (hkget _ _ h1) (hkget _ _ h2)
  refine ⟨?_, ?_, ?_, ?_⟩
  · -- before the first sample
    intro e1 h1 ht1
    have h1' : buf.get? 0 = some e1 := by
      cases buf with
      | nil => simp at h1
      | cons a l => simpa using h1
    have hi : lowerIdx t (buf.map Prod.fst) = 0 := by
      apply lowerIdx_eq_of (Nat.zero_le _)
      · intro jj kk hjj _
        exact absurd hjj (Nat.not_lt_zero jj)
      · intro kk hk
        rw [hkget 0 e1 h1'] at hk
        injection hk with hk
        rw [← hk]
        exact le_of_lt ht1
    have hb : binarySearchByKey (buf.map Prod.fst) t = Sum.inr 0 := by
      unfold binarySearchByKey
      rw [hi, hkget 0 e1 h1']
      simp [ne_of_gt ht1]
    rw [light_dir_for_eq_inr buf t 0 hb, if_pos rfl]
  · -- after the last sample
    intro en hn htn
    have hn' : buf.get? (buf.length - 1) = some en := by
      rw [← List.getLast?_eq_get?]
      exact hn
    have hpos : 0 < buf.length := by
      rcases Nat.eq_zero_or_pos buf.length with h0 | h0
      · rw [List.length_eq_zero.mp h0] at hn
        simp at hn
      · exact h0
    have hi : lowerIdx t (buf.map Prod.fst) = buf.length := by
      apply lowerIdx_eq_of (by rw [List.length_map])
      · intro jj kk hjj hk
        have hjlen : jj < buf.length := by
          have := (List.get?_eq_some.mp hk).1
          rw [List.length_map] at this
          exact this
        obtain ⟨ej, hej⟩ : ∃ ej, buf.get? jj = some ej :=
          ⟨_, List.get?_eq_get hjlen⟩
        have hkk : kk = ej.1 := by
          rw [hkget jj ej hej] at hk
          injection hk with hk
          exact hk.symm
        rcases Nat.lt_or_ge jj (buf.length - 1) with hjl | hjl
        · have hlt := hmono jj (buf.length - 1) ej en hjl hej hn'
          rw [hkk]
          exact lt_trans hlt htn
        · have hje : jj = buf.length - 1 := by omega
          rw [hje, hn'] at hej
          injection hej with hej
          rw [hkk, ← hej]
          exact htn
      · intro kk hk
        rw [List.get?_eq_none.mpr (by rw [List.length_map])] at hk
        exact absurd hk (by simp)
    have hb : binarySearchByKey (buf.map Prod.fst) t = Sum.inr buf.length := by
      unfold binarySearchByKey
      rw [hi, List.get?_eq_none.mpr (by rw [List.length_map])]
    rw [light_dir_for_eq_inr buf t buf.length hb, if_neg (by omega), if_pos rfl]
  · -- exact timestamp match
    intro j e hj hjt
    have hjlen : j < buf.length := (List.get?_eq_some.mp hj).1
    have hi : lowerIdx t (buf.map Prod.fst) = j := by
      apply lowerIdx_eq_of (by rw [List.length_map]; omega)
      · intro jj kk hjj hk
        have hjjlen : jj < buf.length := by omega
        obtain ⟨ej, hej⟩ : ∃ ej, buf.get? jj = some ej :=
          ⟨_, List.get?_eq_get hjjlen⟩
        have hkk : kk = ej.1 := by
          rw [hkget jj ej hej] at hk
          injection hk with hk
          exact hk.symm
        have hlt := hmono jj j ej e hjj hej hj
        rw [hkk, ← hjt]
        exact hlt
      · intro kk hk
        rw [hkget j e hj] at hk
        injection hk with hk
        rw [← hk, hjt]
    have hb : binarySearchByKey (buf.map Prod.fst) t = Sum.inl j := by
      unfold binarySearchByKey
      rw [hi, hkget j e hj]
      simp [hjt]
    rw [light_dir_for_eq_inl buf t j hb, hj]
  · -- strictly between two adjacent samples
    intro j e1 e2 hj hj1 ht1 ht2
    obtain ⟨t1, v1⟩ := e1
    obtain ⟨t2, v2⟩ := e2
    have hjlen : j + 1 < buf.length := (List.get?_eq_some.mp hj1).1
    have hi : lowerIdx t (buf.map Prod.fst) = j + 1 := by
      apply lowerIdx_eq_of (by rw [List.length_map]; omega)
      · intro jj kk hjj hk
        have hjjlen : jj < buf.length := by omega
        obtain ⟨ej, hej⟩ : ∃ ej, buf.get? jj = some ej :=
          ⟨_, List.get?_eq_get hjjlen⟩
        have hkk : kk = ej.1 := by
          rw [hkget jj ej hej] at hk
          injection hk with hk
          exact hk.symm
        rcases Nat.lt_or_ge jj j with hjl | hjl
        · have hlt := hmono jj j ej (t1, v1) hjl hej hj
          rw [hkk]
          exact lt_trans hlt ht1
        · have hje : jj = j := by omega
          rw [hje, hj] at hej
          injection hej with hej
          rw [hkk, ← hej]
          exact ht1
      · intro kk hk
        rw [hkget (j + 1) (t2, v2) hj1] at hk
        injection hk with hk
        rw [← hk]
        exact le_of_lt ht2
    have hb : binarySearchByKey (buf.map Prod.fst) t = Sum.inr (j + 1) := by
      unfold binarySearchByKey
      rw [hi, hkget (j + 1) (t2, v2) hj1]
      simp [ne_of_gt ht2]
    rw [light_dir_for_eq_inr buf t (j + 1) hb, if_neg (by omega), if_neg (by omega),
      Nat.add_sub_cancel, hj, hj1]
    simp only [lerpSpec, Vec3.add, Vec3.sub, Vec3.divs, Vec3.scale, Option.some.injEq,
      Vec3.mk.injEq]
    refine ⟨?_, ?_, ?_⟩ <;> ring

/-- C4 witness: a two-sample buffer queried strictly between the samples; the
theorem applies and yields the interpolated direction. -/
theorem lightDirFor_spec_witness :
    (([(0, ⟨1, 2, 3⟩), (10, ⟨11, 22, 33⟩)] : List (ℚ × Vec3 ℚ)).map Prod.fst).Pairwise
      (· < ·) ∧
    light_dir_for ([(0, ⟨1, 2, 3⟩), (10, ⟨11, 22, 33⟩)] : List (ℚ × Vec3 ℚ)) 5 =
      some (lerpSpec 0 ⟨1, 2, 3⟩ 10 ⟨11, 22, 33⟩ 5) := by
  have h1 : (([(0, ⟨1, 2, 3⟩), (10, ⟨11, 22, 33⟩)] : List (ℚ × Vec3 ℚ)).map Prod.fst).Pairwise
      (· < ·) := by decide
  refine ⟨h1, ?_⟩
  exact (lightDirFor_spec _ 5 h1).2.2.2 0 (0, ⟨1, 2, 3⟩) (10, ⟨11, 22, 33⟩) rfl rfl
    (by norm_num) (by norm_num)

/-! Snapshot insertion (C5). -/

theorem insert_eq_inl {α : Type} (snaps : List (SimState α)) (s : SimState α) (j : ℕ)
    (hb : binarySearchByKey (snaps.map SimState.time) s.time = Sum.inl j) :
    Snapshots.insert snaps s = (snaps, none) := by
  unfold Snapshots.insert
  rw [hb]

theorem insert_eq_inr {α : Type} (snaps : List (SimState α)) (s : SimState α) (i : ℕ)
    (hb : binarySearchByKey (snaps.map SimState.time) s.time = Sum.inr i) :
    Snapshots.insert snaps s =
      (snaps.take i ++ s :: snaps.drop i, some (s.time, s)) := by
  unfold Snapshots.insert
  rw [hb]

theorem take_cons_drop_perm {β : Type} (a : β) :
    ∀ (l : List β) (i : ℕ), (l.take i ++ a :: l.drop i).Perm (a :: l) := by
  intro l
  induction l with
  | nil => intro i; simp
  | cons b l ih =>
    intro i
    cases i with
    | zero => simp
    | succ i' =>
      simp only [List.take_succ_cons, List.drop_succ_cons, List.cons_append]
      exact ((ih i').cons b).trans (List.Perm.swap a b l)

/-- C5: on a cache sorted by strictly increasing times, `insert` is a silent
no-op when a snapshot at exactly `sim.time` already exists (the in-memory list
is unchanged and nothing is persisted, so a duplicate insert is idempotent);
otherwise the state is persisted to storage keyed by its timestamp and placed
at the position that keeps the in-memory list sorted (the new list is a
permutation of the old list plus the new state, still sorted by strictly
increasing times). -/
theorem insert_spec (snaps : List (SimState ℚ)) (s : SimState ℚ)
    (hs : (snaps.map SimState.time).Pairwise (· < ·)) :
    ((∃ j s0, snaps.get? j = some s0 ∧ s0.time = s.time) →
      Snapshots.insert snaps s = (snaps, none)) ∧
    ((∀ j s0, snaps.get? j = some s0 → s0.time ≠ s.time) →
      (Snapshots.insert snaps s).2 = some (s.time, s) ∧
      s ∈ (Snapshots.insert snaps s).1 ∧
      (Snapshots.insert snaps s).1.Perm (s :: snaps) ∧
      ((Snapshots.insert snaps s).1.map SimState.time).Pairwise (· < ·)) := by
  have hkget : ∀ j (s' : SimState ℚ), snaps.get? j = some s' →
      (snaps.map SimState.time).get? j = some s'.time := by
    intro j s' hj
    rw [List.get?_map, hj]
    rfl
  have hmono : ∀ j1 j2 s1 s2, j1 < j2 → snaps.get? j1 = some s1 →
      snaps.get? j2 = some s2 → s1.time < s2.time := by
    intro j1 j2 s1 s2 h12 h1 h2
    exact pairwise_lt_get? hs h12 (hkget _ _ h1) (hkget _ _ h2)
  constructor
  · -- duplicate timestamp: silent no-op
    rintro ⟨j, s0, hj, hjt⟩
    have hjlen : j < snaps.length := (List.get?_eq_some.mp hj).1
    have hi : lowerIdx s.time (snaps.map SimState.time) = j := by
      apply lowerIdx_eq_of (by rw [List.length_map]; omega)
      · intro jj kk hjj hk
        have hjjlen : jj < snaps.length := by omega
        obtain ⟨sj, hsj⟩ : ∃ sj, snaps.get? jj = some sj :=
          ⟨_, List.get?_eq_get hjjlen⟩
        have hkk : kk = sj.time := by
          rw [hkget jj sj hsj] at hk
          injection hk with hk
          exact hk.symm
        have hlt := hmono jj j sj s0 hjj hsj hj
        rw [hkk, ← hjt]
        exact hlt
      · intro kk hk
        rw [hkget j s0 hj] at hk
        injection hk with hk
        rw [← hk, hjt]
    have hb : binarySearchByKey (snaps.map SimState.time) s.time = Sum.inl j := by
      unfold binarySearchByKey
      rw [hi, hkget j s0 hj]
      simp [hjt]
    exact insert_eq_inl snaps s j hb
  · -- fresh timestamp: persisted and placed in sorted position
    intro hfresh
    set i := lowerIdx s.time (snaps.map SimState.time) with hidef
    have hile : i ≤ snaps.length := by
      have := lowerIdx_le_length s.time (snaps.map SimState.time)
      rw [List.length_map] at this
      exact this
    have hbef : ∀ j s', j < i → snaps.get? j = some s' → s'.time < s.time := by
      intro j s' hj hjg
      exact lt_of_lt_lowerIdx hj (hkget _ _ hjg)
    have haft : ∀ j s', i ≤ j → snaps.get? j = some s' → s.time < s'.time := by
      intro j s' hij hjg
      rcases Nat.eq_or_lt_of_le hij with hije | hijl
      · have hle := le_of_get_lowerIdx (hkget _ _ (hije ▸ hjg))
        exact lt_of_le_of_ne hle (fun h => hfresh j s' hjg (h ▸ rfl))
      · have hjlen : j < snaps.length := (List.get?_eq_some.mp hjg).1
        have hilen : i < snaps.length := lt_trans hijl hjlen
        obtain ⟨si, hsi⟩ : ∃ si, snaps.get? i = some si :=
          ⟨_, List.get?_eq_get hilen⟩
        have hle := le_of_get_lowerIdx (hkget _ _ hsi)
        have hne : s.time ≠ si.time := fun h => hfresh i si hsi (h ▸ rfl)
        exact lt_of_le_of_lt (lt_of_le_of_ne hle hne).le (hmono i j si s' hijl hsi hjg)
    have hb : binarySearchByKey (snaps.map SimState.time) s.time = Sum.inr i := by
      unfold binarySearchByKey
      rw [← hidef]
      rcases hk0 : (snaps.map SimState.time).get? i with _ | k
      · rfl
      · have hilen : i < snaps.length := by
          have := (List.get?_eq_some.mp hk0).1
          rw [List.length_map] at this
          exact this
        obtain ⟨si, hsi⟩ : ∃ si, snaps.get? i = some si :=
          ⟨_, List.get?_eq_get hilen⟩
        have hkk : k = si.time := by
          rw [hkget i si hsi] at hk0
          injection hk0 with hk0
          exact hk0.symm
        have hne : k ≠ s.time := by
          rw [hkk]
          exact fun h => hfresh i si hsi h
        simp [hne]
    have hres := insert_eq_inr snaps s i hb
    rw [hres]
    refine ⟨rfl, by simp, take_cons_drop_perm s snaps i, ?_⟩
    rw [List.map_append, List.map_take, List.map_cons, List.map_drop]
    rw [List.pairwise_append]
    refine ⟨hs.sublist (List.take_sublist _ _), ?_, ?_⟩
    · rw [List.pairwise_cons]
      constructor
      · intro b hb'
        obtain ⟨⟨jj, hjjlen⟩, hjj⟩ := List.mem_iff_get.mp hb'
        have hjj' : ((snaps.map SimState.time).drop i).get? jj = some b := by
          rw [List.get?_eq_get hjjlen, hjj]
        rw [List.get?_drop] at hjj'
        have hijlen : i + jj < snaps.length := by
          have := (List.get?_eq_some.mp hjj').1
          rw [List.length_map] at this
          exact this
        obtain ⟨sj, hsj⟩ : ∃ sj, snaps.get? (i + jj) = some sj :=
          ⟨_, List.get?_eq_get hijlen⟩
        have hkk : b = sj.time := by
          rw [hkget _ sj hsj] at hjj'
          injection hjj' with h
          exact h.symm
        rw [hkk]
        exact haft (i + jj) sj (by omega) hsj
      · exact hs.sublist (List.drop_sublist _ _)
    · intro a ha b hb'
      obtain ⟨⟨jj, hjjlen⟩, hjj⟩ := List.mem_iff_get.mp ha
      have hjlt : jj < i := by
        have := hjjlen
        rw [List.length_take] at this
        omega
      have hjj' : ((snaps.map SimState.time).take i).get? jj = some a := by
        rw [List.get?_eq_get hjjlen, hjj]
      rw [List.get?_take hjlt] at hjj'
      have hjjlen2 : jj < snaps.length := by
        have := (List.get?_eq_some.mp hjj').1
        rw [List.length_map] at this
        exact this
      obtain ⟨sj, hsj⟩ : ∃ sj, snaps.get? jj = some sj :=
        ⟨_, List.get?_eq_get hjjlen2⟩
      have hkk : a = sj.time := by
        rw [hkget _ sj hsj] at hjj'
        injection hjj' with h
        exact h.symm
      have halt : a < s.time := by
        rw [hkk]
        exact hbef jj sj hjlt hsj
      rcases List.mem_cons.mp hb' with hbe | hbd
      · rw [hbe]
        exact halt
      · obtain ⟨⟨kk, hkklen⟩, hkk2⟩ := List.mem_iff_get.mp hbd
        have hkk' : ((snaps.map SimState.time).drop i).get? kk = some b := by
          rw [List.get?_eq_get hkklen, hkk2]
        rw [List.get?_drop] at hkk'
        have hiklen : i + kk < snaps.length := by
          have := (List.get?_eq_some.mp hkk').1
          rw [List.length_map] at this
          exact this
        obtain ⟨sk, hsk⟩ : ∃ sk, snaps.get? (i + kk) = some sk :=
          ⟨_, List.get?_eq_get hiklen⟩
        have hkkk : b = sk.time := by
          rw [hkget _ sk hsk] at hkk'
          injection hkk' with h
          exact h.symm
        rw [hkkk]
        exact lt_trans halt (haft (i + kk) sk (by omega) hsk)

/-- C5 witness: inserting a fresh-timestamp state between two cached
snapshots, and the no-op branch on a duplicate timestamp. -/
theorem insert_spec_witness :
    (([⟨100, []⟩, ⟨300, []⟩] : List (SimState ℚ)).map SimState.time).Pairwise (· < ·) ∧
    Snapshots.insert ([⟨100, []⟩, ⟨300, []⟩] : List (SimState ℚ)) ⟨100, []⟩ =
      ([⟨100, []⟩, ⟨300, []⟩], none) ∧
    (Snapshots.insert ([⟨100, []⟩, ⟨300, []⟩] : List (SimState ℚ)) ⟨200, []⟩).2 =
      some (200, ⟨200, []⟩) ∧
    (⟨200, []⟩ : SimState ℚ) ∈
      (Snapshots.insert ([⟨100, []⟩, ⟨300, []⟩] : List (SimState ℚ)) ⟨200, []⟩).1 := by
  have h1 : (([⟨100, []⟩, ⟨300, []⟩] : List (SimState ℚ)).map SimState.time).Pairwise
      (· < ·) := by decide
  have hdup := (insert_spec ([⟨100, []⟩, ⟨300, []⟩] : List (SimState ℚ)) ⟨100, []⟩ h1).1
    ⟨0, ⟨100, []⟩, rfl, rfl⟩
  have hfresh := (insert_spec ([⟨100, []⟩, ⟨300, []⟩] : List (SimState ℚ)) ⟨200, []⟩ h1).2
    (by
      intro j s0 hj ht
      match j, hj with
      | 0, hj =>
        injection hj with hj
        rw [← hj] at ht
        exact absurd ht (by decide)
      | 1, hj =>
        injection hj with hj
        rw [← hj] at ht
        exact absurd ht (by decide))
  exact ⟨h1, hdup, hfresh.1, hfresh.2.1⟩

/-! Eclipse detection geometry (C2, C9). -/

theorem detect_eclipse_eq (light_dirs : List (ℝ × Vec3 ℝ)) (sim : SimState ℝ) (t : ℝ)
    (sun earth moon : Body ℝ) (ld : Vec3 ℝ)
    (hsun : sim.body_by_name "Sun" = some sun)
    (hearth : sim.body_by_name "Earth" = some earth)
    (hmoon : sim.body_by_name "Moon" = some moon)
    (hld : light_dir_for light_dirs (t - earth.distance_from sun / 299792.458) = some ld) :
    detect_eclipse light_dirs sim t = Except.ok (classifyLunar sun earth moon ld) := by
  unfold detect_eclipse
  simp only [hsun, hearth, hmoon, hld]

theorem classifyLunar_eq (sun earth moon : Body ℝ) (ld : Vec3 ℝ) :
    classifyLunar sun earth moon ld =
      lunarBranchResult
        (shadowConeHeight (earth.radius * 1.011) (earth.distance_from sun) sun.radius)
        (earth.radius * 1.011 /
          shadowConeHeight (earth.radius * 1.011) (earth.distance_from sun) sun.radius)
        (Real.arcsin (earth.radius * 1.011 /
          shadowConeHeight (earth.radius * 1.011) (earth.distance_from sun) sun.radius))
        ((moon.pos.sub earth.pos).dot ld.normalize)
        (Real.sqrt
          (((moon.pos.sub earth.pos).sub
              (ld.normalize.scale ((moon.pos.sub earth.pos).dot ld.normalize))).dot
            ((moon.pos.sub earth.pos).sub
              (ld.normalize.scale ((moon.pos.sub earth.pos).dot ld.normalize)))) /
          Real.cos (Real.arcsin (earth.radius * 1.011 /
            shadowConeHeight (earth.radius * 1.011) (earth.distance_from sun) sun.radius)))
        moon.radius := rfl

theorem lunarBranchResult_range (H s a h r rm : ℝ) :
    lunarBranchResult H s a h r rm = none ∨
      lunarBranchResult H s a h r rm = some Eclipse.TotalLunar ∨
      lunarBranchResult H s a h r rm = some Eclipse.PartialLunar := by
  unfold lunarBranchResult
  split
  · exact Or.inr (Or.inl rfl)
  · split
    · exact Or.inr (Or.inr rfl)
    · exact Or.inl rfl

theorem lunarBranch_total (H s h rm : ℝ) (hs1 : s ≤ 1) (hs0 : -1 ≤ s)
    (hh : 0 < h) (hHh : 0 < H - h) (hin : rm / (H - h) < s) :
    lunarBranchResult H s (Real.arcsin s) h 0 rm = some Eclipse.TotalLunar := by
  unfold lunarBranchResult
  rw [if_pos]
  refine ⟨hh, ?_⟩
  rw [Real.sin_arcsin hs0 hs1]
  simpa using hin

theorem lunarBranch_none (H s h r rm : ℝ) (hs0 : 0 < s) (hs1 : s < 1)
    (hh : 0 < h) (hhH : h < H) (hrm : 0 < rm) (hr : 0 ≤ r)
    (hout : rm + (H - h) * s ≤ r * (1 - s ^ 2)) :
    lunarBranchResult H s (Real.arcsin s) h r rm = none := by
  have hsin : Real.sin (Real.arcsin s) = s := Real.sin_arcsin (by linarith) (le_of_lt hs1)
  unfold lunarBranchResult
  rw [hsin]
  have hh2 : 0 < H - h + r * s := by nlinarith
  have hpart : ¬ ((r - rm) / (H - h + r * s) < s) := by
    rw [not_lt, le_div_iff hh2]
    nlinarith
  have htotal : ¬ ((r + rm) / (H - h + r * s) < s) := by
    rw [not_lt, le_div_iff hh2]
    nlinarith
  rw [if_neg (fun hc => htotal hc.2), if_neg (fun hc => hpart hc.2)]

/-- C9: the classifier can only produce "no eclipse", a total lunar eclipse or
a partial lunar eclipse: whenever `detect_eclipse` returns (rather than
panicking on a missing body), the result is `none`, `TotalLunar` or
`PartialLunar`; the declared `PenumbralLunar`, `PartialSolar`, `TotalSolar`
and `AnnularSolar` enumeration values are never returned. -/
theorem detectEclipse_range (light_dirs : List (ℝ × Vec3 ℝ)) (sim : SimState ℝ) (t : ℝ) :
    ∀ r, detect_eclipse light_dirs sim t = Except.ok r →
      r = none ∨ r = some Eclipse.TotalLunar ∨ r = some Eclipse.PartialLunar := by
  intro r h
  unfold detect_eclipse at h
  split at h
  · rename_i sun earth moon _ _ _
    split at h
    · injection h with h
      exact Or.inl h.symm
    · injection h with h
      rw [← h, classifyLunar_eq]
      exact lunarBranchResult_range _ _ _ _ _ _
  · exact absurd h (by simp)

theorem scale_dot (x y : Vec3 ℝ) (c : ℝ) : (x.scale c).dot y = c * (x.dot y) := by
  simp only [Vec3.scale, Vec3.dot]
  ring

theorem add_dot (x y z : Vec3 ℝ) : (x.add y).dot z = x.dot z + y.dot z := by
  simp only [Vec3.add, Vec3.dot]
  ring

theorem sub_self_dot (x : Vec3 ℝ) : (x.sub x).dot (x.sub x) = 0 := by
  simp only [Vec3.sub, Vec3.dot]
  ring

theorem add_sub_cancel_vec (x w : Vec3 ℝ) : (x.add w).sub x = w := by
  cases x
  cases w
  simp only [Vec3.add, Vec3.sub, Vec3.mk.injEq]
  refine ⟨by ring, by ring, by ring⟩

theorem normalize_self_dot (v : Vec3 ℝ) (hv : 0 < v.dot v) :
    v.normalize.dot v.normalize = 1 := by
  have hs : Real.sqrt (v.dot v) * Real.sqrt (v.dot v) = v.dot v :=
    Real.mul_self_sqrt (le_of_lt hv)
  have hspos : 0 < Real.sqrt (v.dot v) := Real.sqrt_pos.mpr hv
  unfold Vec3.normalize Vec3.norm Vec3.divs
  simp only [Vec3.dot] at *
  field_simp

/-- C2 (amended): with Sun, Earth, Moon present, the delayed light direction
`v` available from the buffer, and the code's cone quantities abbreviated as
`re = R_earth * 1.011`, `dist = d(Earth, Sun)`,
`H = shadowConeHeight re dist R_sun = re * dist / (R_sun - re)` and
`s = re / H` (the sine of the cone half-angle), under the physical ranges
`0 < re < R_sun` and `R_sun - re < dist`:

1. if the Moon is exactly on the shadow axis at depth `h0 > 0` with its whole
   disk inside the umbra (`R_moon < (H - h0) * s`), the classifier reports a
   total lunar eclipse;
2. if the Moon sits at depth `0 < h0 < H` with lateral offset `w` orthogonal
   to the axis and the offset is at least
   `(R_moon + (H - h0) * s) / cos a` — i.e. it exceeds the cone's local
   radius plus the Moon's radius *divided by the cosine of the half-angle*,
   equivalently the Moon's perpendicular distance to the cone's lateral
   surface is at least its radius — the classifier reports no eclipse.

The original claim's weaker threshold "local radius plus Moon radius" is not
sufficient; see the counterexample. -/
theorem detectEclipse_geometry_amended
    (light_dirs : List (ℝ × Vec3 ℝ)) (sim : SimState ℝ) (t : ℝ)
    (sun earth moon : Body ℝ) (v : Vec3 ℝ) (re dist H s : ℝ)
    (hsun : sim.body_by_name "Sun" = some sun)
    (hearth : sim.body_by_name "Earth" = some earth)
    (hmoon : sim.body_by_name "Moon" = some moon)
    (hld : light_dir_for light_dirs (t - earth.distance_from sun / 299792.458) = some v)
    (hv : 0 < v.dot v)
    (hre : earth.radius * 1.011 = re)
    (hdist : earth.distance_from sun = dist)
    (hH : shadowConeHeight re dist sun.radius = H)
    (hs : re / H = s)
    (hre0 : 0 < re) (hrs : re < sun.radius) (hdistgt : sun.radius - re < dist)
    (hrm : 0 < moon.radius) :
    ((∃ h0 : ℝ, 0 < h0 ∧ moon.pos.sub earth.pos = v.normalize.scale h0 ∧
        moon.radius < (H - h0) * s) →
      detect_eclipse light_dirs sim t = Except.ok (some Eclipse.TotalLunar)) ∧
    (∀ (h0 : ℝ) (w : Vec3 ℝ),
      moon.pos.sub earth.pos = (v.normalize.scale h0).add w →
      w.dot v.normalize = 0 →
      0 < h0 → h0 < H →
      moon.radius + (H - h0) * s ≤ Real.sqrt (w.dot w) * Real.cos (Real.arcsin s) →
      detect_eclipse light_dirs sim t = Except.ok none) := by
  have huu : v.normalize.dot v.normalize = 1 := normalize_self_dot v hv
  have hrsre : 0 < sun.radius - re := by linarith
  have hdist0 : 0 < dist := lt_trans hrsre hdistgt
  have hseq : s = (sun.radius - re) / dist := by
    have h1 : re ≠ 0 := ne_of_gt hre0
    have h2 : dist ≠ 0 := ne_of_gt hdist0
    have h3 : sun.radius - re ≠ 0 := ne_of_gt hrsre
    rw [← hs, ← hH]
    unfold shadowConeHeight
    field_simp
    ring
  have hs0 : 0 < s := by
    rw [hseq]
    exact div_pos hrsre hdist0
  have hs1 : s < 1 := by
    rw [hseq, div_lt_one hdist0]
    exact hdistgt
  have hdetect := detect_eclipse_eq light_dirs sim t sun earth moon v hsun hearth hmoon hld
  constructor
  · rintro ⟨h0, hh0, hrel, hin⟩
    have hHh0 : 0 < H - h0 := by nlinarith
    rw [hdetect, classifyLunar_eq, hrel]
    have hdot : (v.normalize.scale h0).dot v.normalize = h0 := by
      rw [scale_dot, huu, mul_one]
    rw [hdot, sub_self_dot, Real.sqrt_zero, zero_div, hre, hdist, hH, hs]
    rw [lunarBranch_total H s h0 moon.radius (le_of_lt hs1) (by linarith) hh0 hHh0
      ((div_lt_iff hHh0).mpr (by nlinarith))]
  · intro h0 w hrel hw hh0 hh0H hout
    rw [hdetect, classifyLunar_eq, hrel]
    have hdot : ((v.normalize.scale h0).add w).dot v.normalize = h0 := by
      rw [add_dot, scale_dot, huu, hw, mul_one, add_zero]
    rw [hdot, add_sub_cancel_vec, hre, hdist, hH, hs]
    have hcos : Real.cos (Real.arcsin s) = Real.sqrt (1 - s ^ 2) := Real.cos_arcsin s
    have hcos2 : Real.cos (Real.arcsin s) ^ 2 = 1 - s ^ 2 := by
      rw [hcos]
      exact Real.sq_sqrt (by nlinarith)
    have hcospos : 0 < Real.cos (Real.arcsin s) := by
      rw [hcos]
      exact Real.sqrt_pos.mpr (by nlinarith)
    have hd0 : 0 ≤ Real.sqrt (w.dot w) := Real.sqrt_nonneg _
    have hr0 : 0 ≤ Real.sqrt (w.dot w) / Real.cos (Real.arcsin s) :=
      div_nonneg hd0 (le_of_lt hcospos)
    have hkey : moon.radius + (H - h0) * s ≤
        Real.sqrt (w.dot w) / Real.cos (Real.arcsin s) * (1 - s ^ 2) := by
      have heq : Real.sqrt (w.dot w) / Real.cos (Real.arcsin s) * (1 - s ^ 2) =
          Real.sqrt (w.dot w) * Real.cos (Real.arcsin s) := by
        rw [← hcos2]
        field_simp
        ring
      rw [heq]
      exact hout
    rw [lunarBranch_none H s h0 (Real.sqrt (w.dot w) / Real.cos (Real.arcsin s))
      moon.radius hs0 hs1 hh0 hh0H hrm hr0 hkey]

/-! Concrete evaluations on the fixtures. -/

theorem reFx : earthFx.radius * 1.011 = 1000 := by
  unfold earthFx
  norm_num

theorem distFx : earthFx.distance_from sunFx = 1000 := by
  unfold Body.distance_from earthFx sunFx
  simp only [Vec3.sub, Vec3.dot]
  norm_num
  rw [show (1000000 : ℝ) = 1000 ^ 2 by norm_num]
  exact Real.sqrt_sq (by norm_num)

theorem normFx : Vec3.normalize ⟨1, 0, 0⟩ = ⟨1, 0, 0⟩ := by
  unfold Vec3.normalize Vec3.norm
  simp [Vec3.dot, Vec3.divs]

theorem sin_arcsin_fx : Real.sin (Real.arcsin (3 / 5 : ℝ)) = 3 / 5 :=
  Real.sin_arcsin (by norm_num) (by norm_num)

theorem cos_arcsin_fx : Real.cos (Real.arcsin (3 / 5 : ℝ)) = 4 / 5 := by
  rw [Real.cos_arcsin]
  rw [show (1 - (3 / 5 : ℝ) ^ 2) = (4 / 5) ^ 2 by norm_num]
  exact Real.sqrt_sq (by norm_num)

theorem sqrt_offset_fx : Real.sqrt ((⟨0, 1110, 0⟩ : Vec3 ℝ).dot ⟨0, 1110, 0⟩) = 1110 := by
  have hdd : (⟨0, 1110, 0⟩ : Vec3 ℝ).dot ⟨0, 1110, 0⟩ = 1232100 := by
    simp [Vec3.dot]
    norm_num
  rw [hdd, show (1232100 : ℝ) = 1110 ^ 2 by norm_num]
  exact Real.sqrt_sq (by norm_num)

theorem lightDirFx :
    light_dir_for bufFx (tFx - earthFx.distance_from sunFx / 299792.458) =
      some ⟨1, 0, 0⟩ := by
  have harg : tFx - earthFx.distance_from sunFx / 299792.458 = 0 := by
    rw [distFx]
    unfold tFx
    exact sub_self _
  rw [harg]
  have hmap : bufFx.map Prod.fst = [0] := rfl
  have hlow : lowerIdx (0 : ℝ) [0] = 0 := by
    unfold lowerIdx
    rw [if_pos le_rfl]
  have hb : binarySearchByKey (bufFx.map Prod.fst) 0 = Sum.inl 0 := by
    rw [hmap]
    unfold binarySearchByKey
    rw [hlow]
    simp
  rw [light_dir_for_eq_inl bufFx 0 0 hb]
  rfl

theorem hFxH : shadowConeHeight 1000 1000 sunFx.radius = 5000 / 3 := by
  have hr : sunFx.radius = 1600 := rfl
  rw [hr]
  unfold shadowConeHeight
  norm_num

theorem classifyPartialFx :
    classifyLunar sunFx earthFx moonPartialFx ⟨1, 0, 0⟩ = some Eclipse.PartialLunar := by
  rw [classifyLunar_eq, reFx, distFx, hFxH, normFx]
  have hs : (1000 : ℝ) / (5000 / 3) = 3 / 5 := by norm_num
  rw [hs]
  have hmrel : moonPartialFx.pos.sub earthFx.pos = ⟨1000 / 3, 1110, 0⟩ := by
    unfold moonPartialFx earthFx
    simp [Vec3.sub]
  rw [hmrel]
  have hdot : (⟨1000 / 3, 1110, 0⟩ : Vec3 ℝ).dot ⟨1, 0, 0⟩ = 1000 / 3 := by
    simp [Vec3.dot]
  rw [hdot]
  have hrv : (⟨1000 / 3, 1110, 0⟩ : Vec3 ℝ).sub ((⟨1, 0, 0⟩ : Vec3 ℝ).scale (1000 / 3)) =
      ⟨0, 1110, 0⟩ := by
    simp [Vec3.sub, Vec3.scale]
  rw [hrv, sqrt_offset_fx, cos_arcsin_fx]
  have hrm : moonPartialFx.radius = 100 := rfl
  rw [hrm]
  unfold lunarBranchResult
  rw [sin_arcsin_fx]
  rw [if_neg ?hneg, if_pos ?hpos]
  case hneg =>
    rintro ⟨-, hc⟩
    norm_num at hc
  case hpos =>
    norm_num

theorem detect_partialFx :
    detect_eclipse bufFx simPartialFx tFx = Except.ok (some Eclipse.PartialLunar) := by
  rw [detect_eclipse_eq bufFx simPartialFx tFx sunFx earthFx moonPartialFx ⟨1, 0, 0⟩
    rfl rfl rfl lightDirFx, classifyPartialFx]

/-- C2 counterexample: in the fixture the Moon sits at axial depth `1000/3`
with lateral offset `(0, 1110, 0)` orthogonal to the shadow axis; the offset
magnitude `1110` exceeds the cone's local radius at that depth plus the
Moon's radius (`1000 + 100 = 1100`), yet the detector classifies the
configuration as a partial lunar eclipse instead of the no-eclipse the claim
requires (the code's threshold is `1000 + 100 / cos a = 1125`). -/
theorem detectEclipse_offset_counterexample :
    detect_eclipse bufFx simPartialFx tFx = Except.ok (some Eclipse.PartialLunar) ∧
    moonPartialFx.pos.sub earthFx.pos =
      ((Vec3.normalize ⟨1, 0, 0⟩).scale (1000 / 3)).add ⟨0, 1110, 0⟩ ∧
    (⟨0, 1110, 0⟩ : Vec3 ℝ).dot (Vec3.normalize ⟨1, 0, 0⟩) = 0 ∧
    Real.sqrt ((⟨0, 1110, 0⟩ : Vec3 ℝ).dot ⟨0, 1110, 0⟩) = 1110 ∧
    coneLocalRadius
        (shadowConeHeight (earthFx.radius * 1.011) (earthFx.distance_from sunFx) sunFx.radius)
        (Real.arcsin (earthFx.radius * 1.011 /
          shadowConeHeight (earthFx.radius * 1.011) (earthFx.distance_from sunFx) sunFx.radius))
        (1000 / 3) +
      moonPartialFx.radius < 1110 := by
  refine ⟨detect_partialFx, ?_, ?_, sqrt_offset_fx, ?_⟩
  · rw [normFx]
    unfold moonPartialFx earthFx
    simp [Vec3.sub, Vec3.scale, Vec3.add]
  · rw [normFx]
    simp [Vec3.dot]
  · rw [reFx, distFx, hFxH]
    have hs : (1000 : ℝ) / (5000 / 3) = 3 / 5 := by norm_num
    rw [hs]
    unfold coneLocalRadius
    rw [Real.tan_arcsin]
    rw [show (1 - (3 / 5 : ℝ) ^ 2) = (4 / 5) ^ 2 by norm_num]
    rw [Real.sqrt_sq (by norm_num)]
    have hrm : moonPartialFx.radius = 100 := rfl
    rw [hrm]
    norm_num

/-- C2 witness: the amended geometry theorem applied to the collinear
fixture, reporting a total lunar eclipse. -/
theorem detectEclipse_geometry_amended_witness :
    detect_eclipse bufFx simTotalFx tFx = Except.ok (some Eclipse.TotalLunar) := by
  have hmrel : moonTotalFx.pos.sub earthFx.pos = (Vec3.normalize ⟨1, 0, 0⟩).scale (1000 / 3) := by
    rw [normFx]
    unfold moonTotalFx earthFx
    simp [Vec3.sub, Vec3.scale]
  have hrs : (1000 : ℝ) < sunFx.radius := by
    have hr : sunFx.radius = 1600 := rfl
    rw [hr]
    norm_num
  have hdistgt : sunFx.radius - 1000 < 1000 := by
    have hr : sunFx.radius = 1600 := rfl
    rw [hr]
    norm_num
  have hrm : (0 : ℝ) < moonTotalFx.radius := by
    have hr : moonTotalFx.radius = 100 := rfl
    rw [hr]
    norm_num
  have hin : moonTotalFx.radius < (5000 / 3 - 1000 / 3) * (3 / 5) := by
    have hr : moonTotalFx.radius = 100 := rfl
    rw [hr]
    norm_num
  exact (detectEclipse_geometry_amended bufFx simTotalFx tFx sunFx earthFx moonTotalFx
      ⟨1, 0, 0⟩ 1000 1000 (5000 / 3) (3 / 5) rfl rfl rfl lightDirFx
      (by simp [Vec3.dot]) reFx distFx hFxH (by norm_num)
      (by norm_num) hrs hdistgt hrm).1
    ⟨1000 / 3, by norm_num, hmrel, hin⟩

/-- C9 witness: a run of the detector that returns, with its result within
the lunar-only range. -/
theorem detectEclipse_range_witness :
    detect_eclipse bufFx simPartialFx tFx = Except.ok (some Eclipse.PartialLunar) ∧
    ((some Eclipse.PartialLunar : Option Eclipse) = none ∨
      (some Eclipse.PartialLunar : Option Eclipse) = some Eclipse.TotalLunar ∨
      (some Eclipse.PartialLunar : Option Eclipse) = some Eclipse.PartialLunar) :=
  ⟨detect_partialFx,
    detectEclipse_range bufFx simPartialFx tFx (some Eclipse.PartialLunar) detect_partialFx⟩

end EclipsePredictor
